import Mathlib

/-!
Verification of the stock_analysis repository's backtest engine
(`src/backtest.py`) and signal evaluators (`src/evaluation.py`).

The embedding works over exact rationals (`ℚ`) in place of Python floats,
and over list indices (`ℕ`) in place of pandas date indices.  A price /
signal DataFrame becomes a `List (ℚ × ℤ)` of (Close, signal) rows; a
missing float (pandas `NaN`) becomes `Option.none`.
-/

namespace StockAnalysis

/-- Trade type tags: `買入` / `賣出` / `結束平倉` in the source ledger. -/
inductive TradeKind where
  | buy
  | sell
  | forcedClose
deriving DecidableEq, Repr

/-- One row of the source's trade ledger (`trades.append({...})` in
`backtest_strategy`).  `flow` is the `成本` column for a buy and the
`所得` column for a sell / forced close; `remaining` is `剩餘資金`. -/
structure Trade where
  date : ℕ
  kind : TradeKind
  price : ℚ
  shares : ℤ
  flow : ℚ
  remaining : ℚ
deriving DecidableEq, Repr

/-- The loop state of `backtest_strategy`: `capital`, `position`, `trades`. -/
structure BTState where
  capital : ℚ
  position : ℤ
  trades : List Trade
deriving DecidableEq, Repr

/-- Python `int()` applied to a rational: truncation toward zero. -/
def pyInt (q : ℚ) : ℤ := if 0 ≤ q then ⌊q⌋ else -⌊-q⌋

/-- One iteration of the `for i in range(1, len(data))` loop of
`backtest_strategy`, lines 30–70: buy when `signal > 0 and position == 0`
(skipped when `int(trade_capital / price)` is not positive), sell the whole
position when `signal < 0 and position > 0`, otherwise do nothing. -/
def btStep (positionSize : ℚ) (st : BTState) (i : ℕ) (bar : ℚ × ℤ) : BTState :=
  if 0 < bar.2 ∧ st.position = 0 then
    if 0 < pyInt (st.capital * positionSize / bar.1) then
      { capital := st.capital - (pyInt (st.capital * positionSize / bar.1) : ℚ) * bar.1
        position := pyInt (st.capital * positionSize / bar.1)
        trades := st.trades ++
          [⟨i, .buy, bar.1, pyInt (st.capital * positionSize / bar.1),
            (pyInt (st.capital * positionSize / bar.1) : ℚ) * bar.1,
            st.capital - (pyInt (st.capital * positionSize / bar.1) : ℚ) * bar.1⟩] }
    else st
  else if bar.2 < 0 ∧ 0 < st.position then
    { capital := st.capital + (st.position : ℚ) * bar.1
      position := 0
      trades := st.trades ++
        [⟨i, .sell, bar.1, st.position, (st.position : ℚ) * bar.1,
          st.capital + (st.position : ℚ) * bar.1⟩] }
  else st

/-- The bar loop itself; `i` is the running index (started at 1, the first
bar being dropped by the caller, as in `range(1, len(data))`). -/
def runBars (positionSize : ℚ) : BTState → ℕ → List (ℚ × ℤ) → BTState
  | st, _, [] => st
  | st, i, bar :: rest => runBars positionSize (btStep positionSize st i bar) (i + 1) rest

/-- Lines 73–85: if a position is still open after the loop, liquidate it at
`data['Close'].iloc[-1]` and append a `結束平倉` (forced close) row.  The
`none` branch is unreachable: a position can only have been opened while
iterating over a bar, hence `bars` is nonempty whenever `0 < st.position`. -/
def applyForcedClose (bars : List (ℚ × ℤ)) (st : BTState) : BTState :=
  if 0 < st.position then
    match bars.getLast? with
    | some bar =>
        { capital := st.capital + (st.position : ℚ) * bar.1
          position := 0
          trades := st.trades ++
            [⟨bars.length - 1, .forcedClose, bar.1, st.position,
              (st.position : ℚ) * bar.1, st.capital + (st.position : ℚ) * bar.1⟩] }
    | none => st
  else st

/-- `buy_trades = trades_df[trades_df['類型'] == '買入']` (line 93). -/
def buyTrades (ts : List Trade) : List Trade :=
  ts.filter fun t => decide (t.kind = .buy)

/-- `sell_trades = trades_df[trades_df['類型'].isin(['賣出', '結束平倉'])]` (line 94). -/
def sellTrades (ts : List Trade) : List Trade :=
  ts.filter fun t => decide (t.kind = .sell ∨ t.kind = .forcedClose)

/-- The positional pairing of the P&L loop (lines 103–127): the i-th buy is
paired with the i-th sell-or-forced-close; `zip` truncates at
`min_count = min(len(buy_trades), len(sell_trades))` exactly as the loop does. -/
def tradePairs (ts : List Trade) : List (Trade × Trade) :=
  (buyTrades ts).zip (sellTrades ts)

/-- `trade_profit = (sell_price - buy_price) * buy_shares` (line 113). -/
def pairProfit (p : Trade × Trade) : ℚ :=
  (p.2.price - p.1.price) * (p.1.shares : ℚ)

/-- `winning_trades`: pairs with `trade_profit > 0`. -/
def winningCount (ts : List Trade) : ℕ :=
  ((tradePairs ts).filter fun p => decide (0 < pairProfit p)).length

/-- `losing_trades`: pairs with `trade_profit <= 0` (the `else` branch). -/
def losingCount (ts : List Trade) : ℕ :=
  ((tradePairs ts).filter fun p => decide (¬ 0 < pairProfit p)).length

/-- `total_profit`: sum of positive pair profits. -/
def grossProfit (ts : List Trade) : ℚ :=
  (((tradePairs ts).map pairProfit).filter fun x => decide (0 < x)).sum

/-- `total_loss`: sum of non-positive pair profits (a non-positive number). -/
def grossLoss (ts : List Trade) : ℚ :=
  (((tradePairs ts).map pairProfit).filter fun x => decide (¬ 0 < x)).sum

/-- `holding_days` accumulator: dates are indices here, so
`(sell_date - buy_date).days` becomes integer subtraction of indices. -/
def holdingSum (ts : List Trade) : ℤ :=
  ((tradePairs ts).map fun p => (p.2.date : ℤ) - (p.1.date : ℤ)).sum

/-- `avg_holding_days`, divided by `min_count` when positive (lines 129–130). -/
def avgHoldingDays (ts : List Trade) : ℚ :=
  if (tradePairs ts).length = 0 then 0
  else (holdingSum ts : ℚ) / ((tradePairs ts).length : ℚ)

/-- The `盈虧比` field is a Python float that can be `float('inf')`. -/
inductive ProfitFactor where
  | inf
  | val (q : ℚ)
deriving DecidableEq, Repr

/-- The per-signal summary dict built at lines 134–158 (minus the ledger). -/
structure BacktestSummary where
  initialCapital : ℚ
  finalCapital : ℚ
  totalReturn : ℚ
  numTrades : ℕ
  winRate : ℚ
  avgHolding : ℚ
  totalProfit : ℚ
  totalLoss : ℚ
  profitFactor : ProfitFactor
deriving DecidableEq, Repr

/-- Summary derivation, lines 88–158.  With a nonempty ledger the fields come
from the pairing statistics; with an empty ledger every statistic is the
hard-coded zero of the `else` branch (line 147–158). -/
def mkSummary (initial : ℚ) (st : BTState) : BacktestSummary :=
  if st.trades.length = 0 then
    { initialCapital := initial
      finalCapital := st.capital
      totalReturn := 0
      numTrades := 0
      winRate := 0
      avgHolding := 0
      totalProfit := 0
      totalLoss := 0
      profitFactor := .val 0 }
  else
    { initialCapital := initial
      finalCapital := st.capital
      totalReturn := (st.capital / initial - 1) * 100
      numTrades := st.trades.length / 2
      winRate := (winningCount st.trades : ℚ) / (st.trades.length : ℚ) * 100
      avgHolding := avgHoldingDays st.trades
      totalProfit := grossProfit st.trades
      totalLoss := grossLoss st.trades
      profitFactor :=
        if grossLoss st.trades ≠ 0 then .val |grossProfit st.trades / grossLoss st.trades|
        else .inf }

/-- `backtest_strategy` for one signal column: the bar loop over indices
`1..n-1`, the forced close, and the summary.  Returns the trade ledger and
the summary row. -/
def backtest_strategy (bars : List (ℚ × ℤ)) (initialCapital positionSize : ℚ) :
    List Trade × BacktestSummary :=
  ((applyForcedClose bars
      (runBars positionSize ⟨initialCapital, 0, []⟩ 1 (bars.drop 1))).trades,
    mkSummary initialCapital
      (applyForcedClose bars
        (runBars positionSize ⟨initialCapital, 0, []⟩ 1 (bars.drop 1))))

/-- C1: price series [10, 12, 8, 15], signal [0, 1, -1, 0], capital 1000,
position fraction 1.0: the engine buys ⌊1000/12⌋ = 83 shares at 12 on bar 1
(cost 996, cash 4), sells the 83 shares at 8 on bar 2 (proceeds 664,
cash 668), appends no ForcedClose, and reports final capital 668 with total
return -33.2%. -/
theorem c1_scenario :
    (backtest_strategy [(10, 0), (12, 1), (8, -1), (15, 0)] 1000 1).1 =
      [⟨1, .buy, 12, 83, 996, 4⟩, ⟨2, .sell, 8, 83, 664, 668⟩]
    ∧ (backtest_strategy [(10, 0), (12, 1), (8, -1), (15, 0)] 1000 1).2.finalCapital = 668
    ∧ (backtest_strategy [(10, 0), (12, 1), (8, -1), (15, 0)] 1000 1).2.totalReturn = -166 / 5
    ∧ ∀ t ∈ (backtest_strategy [(10, 0), (12, 1), (8, -1), (15, 0)] 1000 1).1,
        t.kind ≠ TradeKind.forcedClose := by
  norm_num +decide [backtest_strategy, runBars, btStep, pyInt, applyForcedClose, mkSummary]

/-- Sum of the `成本` column over the buy rows of a ledger. -/
def buyFlowSum (ts : List Trade) : ℚ := ((buyTrades ts).map Trade.flow).sum

/-- Sum of the `所得` column over the sell / forced-close rows of a ledger. -/
def sellFlowSum (ts : List Trade) : ℚ := ((sellTrades ts).map Trade.flow).sum

/-- Loop invariant of `backtest_strategy`'s bar pass: cash accounting, the
first ledger row (always a buy whose `剩餘資金 + 成本` reconstructs the
initial capital), the open/flat position versus the last ledger row, and the
absence of forced closes inside the loop. -/
def engineInv (initial : ℚ) (st : BTState) : Prop :=
  st.capital = initial + sellFlowSum st.trades - buyFlowSum st.trades
  ∧ (∀ t, st.trades.head? = some t → t.kind = .buy ∧ t.remaining + t.flow = initial)
  ∧ ((st.position = 0 ∧ (st.trades = [] ∨
        ∃ t, st.trades.getLast? = some t ∧ (t.kind = .sell ∨ t.kind = .forcedClose)))
     ∨ (0 < st.position ∧ ∃ t, st.trades.getLast? = some t ∧ t.kind = .buy))
  ∧ ∀ t ∈ st.trades, t.kind ≠ .forcedClose

theorem buyFlowSum_append (ts us : List Trade) :
    buyFlowSum (ts ++ us) = buyFlowSum ts + buyFlowSum us := by
  simp [buyFlowSum, buyTrades, List.filter_append]

theorem sellFlowSum_append (ts us : List Trade) :
    sellFlowSum (ts ++ us) = sellFlowSum ts + sellFlowSum us := by
  simp [sellFlowSum, sellTrades, List.filter_append]

theorem btStep_inv {initial ps : ℚ} {st : BTState} {i : ℕ} {bar : ℚ × ℤ}
    (h : engineInv initial st) : engineInv initial (btStep ps st i bar) := by
  obtain ⟨hflow, hhead, hshape, hfc⟩ := h
  unfold btStep
  split
  · next hbuy =>
    split
    · next hsh =>
      refine ⟨?_, ?_, ?_, ?_⟩
      · simp only [buyFlowSum_append, sellFlowSum_append]
        simp [buyFlowSum, sellFlowSum, buyTrades, sellTrades, List.filter_cons, hflow]
        ring
      · intro t ht
        cases hts : st.trades with
        | nil =>
          simp only [hts, List.nil_append, List.head?_cons, Option.some.injEq] at ht
          subst ht
          have : st.capital = initial := by
            simpa [hts, buyFlowSum, sellFlowSum, buyTrades, sellTrades] using hflow
          exact ⟨rfl, by simp [this]⟩
        | cons t0 ts0 =>
          simp only [hts, List.cons_append, List.head?_cons, Option.some.injEq] at ht
          subst ht
          exact hhead t0 (by simp [hts])
      · exact Or.inr ⟨hsh, ⟨_, List.getLast?_concat _, rfl⟩⟩
      · intro t ht
        rcases List.mem_append.mp ht with h1 | h2
        · exact hfc t h1
        · simp only [List.mem_singleton] at h2
          subst h2
          simp
    · next => exact ⟨hflow, hhead, hshape, hfc⟩
  · split
    · next hsell =>
      have hne : st.trades ≠ [] := by
        rcases hshape with ⟨hp0, _⟩ | ⟨hp, t, hlast, _⟩
        · omega
        · intro hnil
          rw [hnil] at hlast
          simp at hlast
      refine ⟨?_, ?_, ?_, ?_⟩
      · simp only [buyFlowSum_append, sellFlowSum_append]
        simp [buyFlowSum, sellFlowSum, buyTrades, sellTrades, List.filter_cons, hflow]
        ring
      · intro t ht
        cases hts : st.trades with
        | nil => exact absurd hts hne
        | cons t0 ts0 =>
          simp only [hts, List.cons_append, List.head?_cons, Option.some.injEq] at ht
          subst ht
          exact hhead t0 (by simp [hts])
      · exact Or.inl ⟨rfl, Or.inr ⟨_, List.getLast?_concat _, Or.inl rfl⟩⟩
      · intro t ht
        rcases List.mem_append.mp ht with h1 | h2
        · exact hfc t h1
        · simp only [List.mem_singleton] at h2
          subst h2
          simp
    · next => exact ⟨hflow, hhead, hshape, hfc⟩

theorem runBars_inv {initial ps : ℚ} (bs : List (ℚ × ℤ)) :
    ∀ (st : BTState) (i : ℕ), engineInv initial st →
      engineInv initial (runBars ps st i bs) := by
  induction bs with
  | nil => intro st i h; exact h
  | cons b rest ih => intro st i h; exact ih _ _ (btStep_inv h)

theorem engineInv_start (initial : ℚ) : engineInv initial ⟨initial, 0, []⟩ := by
  refine ⟨by simp [buyFlowSum, sellFlowSum, buyTrades, sellTrades], ?_, ?_, ?_⟩
  · intro t ht; simp at ht
  · exact Or.inl ⟨rfl, Or.inl rfl⟩
  · intro t ht; simp at ht

/-- If the bar list of the loop is empty, the loop is the identity. -/
theorem runBars_nil_eq (ps : ℚ) (st : BTState) (i : ℕ) : runBars ps st i [] = st := rfl

/-- After `applyForcedClose`, the position is flat, the cash accounting
identity holds, the head row still reconstructs the initial capital, and a
nonempty ledger ends with a closing row. -/
theorem applyForcedClose_final {initial : ℚ} (bars : List (ℚ × ℤ)) {st : BTState}
    (h : engineInv initial st) (hbars : 0 < st.position → bars ≠ []) :
    (applyForcedClose bars st).position = 0
    ∧ (applyForcedClose bars st).capital =
        initial + sellFlowSum (applyForcedClose bars st).trades
          - buyFlowSum (applyForcedClose bars st).trades
    ∧ (∀ t, (applyForcedClose bars st).trades.head? = some t →
        t.kind = .buy ∧ t.remaining + t.flow = initial)
    ∧ ((applyForcedClose bars st).trades = [] ∨
        ∃ t, (applyForcedClose bars st).trades.getLast? = some t ∧
          (t.kind = .sell ∨ t.kind = .forcedClose)) := by
  obtain ⟨hflow, hhead, hshape, hfc⟩ := h
  unfold applyForcedClose
  split
  · next hpos =>
    have hne : bars ≠ [] := hbars hpos
    obtain ⟨bar, hbar⟩ := Option.isSome_iff_exists.mp (List.getLast?_isSome.mpr hne)
    rw [hbar]
    have hne' : st.trades ≠ [] := by
      rcases hshape with ⟨hp0, _⟩ | ⟨_, t, hlast, _⟩
      · omega
      · intro hnil; rw [hnil] at hlast; simp at hlast
    refine ⟨rfl, ?_, ?_, ?_⟩
    · simp only [buyFlowSum_append, sellFlowSum_append]
      simp [buyFlowSum, sellFlowSum, buyTrades, sellTrades, List.filter_cons, hflow]
      ring
    · intro t ht
      cases hts : st.trades with
      | nil => exact absurd hts hne'
      | cons t0 ts0 =>
        simp only [hts, List.cons_append, List.head?_cons, Option.some.injEq] at ht
        subst ht
        exact hhead t0 (by simp [hts])
    · exact Or.inr ⟨_, List.getLast?_concat _, Or.inr rfl⟩
  · next hpos =>
    have hp0 : st.position = 0 := by
      rcases hshape with ⟨hp0, _⟩ | ⟨hp, _⟩
      · exact hp0
      · omega
    refine ⟨hp0, hflow, hhead, ?_⟩
    rcases hshape with ⟨_, hl⟩ | ⟨hp, _⟩
    · exact hl
    · omega

/-- C2: every ledger ends flat — the final position is zero; when the loop
ends still holding, exactly one ForcedClose at the last bar's close price is
appended to the (ForcedClose-free) loop ledger, and otherwise nothing is
appended.  Concrete scenario: prices [10, 12, 8], signal [0, 1, 0],
capital 1000, fraction 1: the ledger is a Buy then a ForcedClose at price 8
and the round-trip count is 1. -/
theorem c2_ledger_ends_flat (bars : List (ℚ × ℤ)) (init ps : ℚ) :
    (applyForcedClose bars (runBars ps ⟨init, 0, []⟩ 1 (bars.drop 1))).position = 0
    ∧ (∀ st1, runBars ps ⟨init, 0, []⟩ 1 (bars.drop 1) = st1 →
        (∀ t ∈ st1.trades, t.kind ≠ TradeKind.forcedClose)
        ∧ (0 < st1.position →
            ∃ bar, bars.getLast? = some bar ∧
              (backtest_strategy bars init ps).1 =
                st1.trades ++ [⟨bars.length - 1, .forcedClose, bar.1, st1.position,
                  (st1.position : ℚ) * bar.1, st1.capital + (st1.position : ℚ) * bar.1⟩])
        ∧ (st1.position = 0 → (backtest_strategy bars init ps).1 = st1.trades))
    ∧ (backtest_strategy [(10, 0), (12, 1), (8, 0)] 1000 1).1 =
        [⟨1, .buy, 12, 83, 996, 4⟩, ⟨2, .forcedClose, 8, 83, 664, 668⟩]
    ∧ (backtest_strategy [(10, 0), (12, 1), (8, 0)] 1000 1).2.numTrades = 1 := by
  have hinv : engineInv init (runBars ps ⟨init, 0, []⟩ 1 (bars.drop 1)) :=
    runBars_inv _ _ _ (engineInv_start init)
  have hbars : 0 < (runBars ps ⟨init, 0, []⟩ 1 (bars.drop 1)).position → bars ≠ [] := by
    intro hpos hnil
    subst hnil
    simp [runBars_nil_eq] at hpos
  refine ⟨(applyForcedClose_final bars hinv hbars).1, ?_, ?_, ?_⟩
  · intro st1 hst1
    subst hst1
    refine ⟨hinv.2.2.2, ?_, ?_⟩
    · intro hpos
      have hne : bars ≠ [] := hbars hpos
      obtain ⟨bar, hbar⟩ := Option.isSome_iff_exists.mp (List.getLast?_isSome.mpr hne)
      refine ⟨bar, hbar, ?_⟩
      simp only [backtest_strategy, applyForcedClose, if_pos hpos, hbar]
    · intro hpos
      simp only [backtest_strategy, applyForcedClose, hpos]
      simp
  · norm_num +decide [backtest_strategy, runBars, btStep, pyInt, applyForcedClose]
  · norm_num +decide [backtest_strategy, runBars, btStep, pyInt, applyForcedClose, mkSummary]

/-- Witness for C2 at the concrete scenario of the claim. -/
theorem c2_ledger_ends_flat_witness :
    0 < (runBars 1 ⟨1000, 0, []⟩ 1 ([((10 : ℚ), (0 : ℤ)), (12, 1), (8, 0)].drop 1)).position
    ∧ ∃ bar, ([((10 : ℚ), (0 : ℤ)), (12, 1), (8, 0)]).getLast? = some bar ∧
        (backtest_strategy [(10, 0), (12, 1), (8, 0)] 1000 1).1 =
          (runBars 1 ⟨1000, 0, []⟩ 1 ([((10 : ℚ), (0 : ℤ)), (12, 1), (8, 0)].drop 1)).trades ++
            [⟨[((10 : ℚ), (0 : ℤ)), (12, 1), (8, 0)].length - 1, .forcedClose, bar.1,
              (runBars 1 ⟨1000, 0, []⟩ 1 ([((10 : ℚ), (0 : ℤ)), (12, 1), (8, 0)].drop 1)).position,
              ((runBars 1 ⟨1000, 0, []⟩ 1 ([((10 : ℚ), (0 : ℤ)), (12, 1), (8, 0)].drop 1)).position : ℚ) * bar.1,
              (runBars 1 ⟨1000, 0, []⟩ 1 ([((10 : ℚ), (0 : ℤ)), (12, 1), (8, 0)].drop 1)).capital +
                ((runBars 1 ⟨1000, 0, []⟩ 1 ([((10 : ℚ), (0 : ℤ)), (12, 1), (8, 0)].drop 1)).position : ℚ) * bar.1⟩] := by
  have hpos : 0 < (runBars 1 ⟨1000, 0, []⟩ 1
      ([((10 : ℚ), (0 : ℤ)), (12, 1), (8, 0)].drop 1)).position := by
    norm_num [runBars, btStep, pyInt]
  exact ⟨hpos, ((c2_ledger_ends_flat [(10, 0), (12, 1), (8, 0)] 1000 1).2.1 _ rfl).2.1 hpos⟩

/-- `applyForcedClose` only looks at the last bar and the bar count. -/
theorem applyForcedClose_congr (bars bars' : List (ℚ × ℤ))
    (hlast : bars.getLast? = bars'.getLast?) (hlen : bars.length = bars'.length)
    (st : BTState) : applyForcedClose bars st = applyForcedClose bars' st := by
  unfold applyForcedClose
  rw [hlast, hlen]

/-- On a nonnegative rational, Python truncation is the floor. -/
theorem pyInt_eq_floor {q : ℚ} (h : 0 ≤ q) : pyInt q = ⌊q⌋ := if_pos h

/-- C5: at a bar with a positive signal while flat, the engine buys
`⌊cash * position_fraction / close⌋` shares, deducting their cost from cash;
when that floor is zero the entry is skipped with no trade appended; and the
first bar of the series is never actionable (the whole backtest is invariant
under its signal value). -/
theorem c5_buy_rule (ps : ℚ) (st : BTState) (i : ℕ) (price : ℚ) (sig : ℤ)
    (hsig : 0 < sig) (hflat : st.position = 0)
    (hcap : 0 ≤ st.capital) (hps : 0 ≤ ps) (hprice : 0 < price) :
    (0 < ⌊st.capital * ps / price⌋ →
      btStep ps st i (price, sig) =
        { capital := st.capital - (⌊st.capital * ps / price⌋ : ℚ) * price
          position := ⌊st.capital * ps / price⌋
          trades := st.trades ++
            [⟨i, .buy, price, ⌊st.capital * ps / price⌋,
              (⌊st.capital * ps / price⌋ : ℚ) * price,
              st.capital - (⌊st.capital * ps / price⌋ : ℚ) * price⟩] })
    ∧ (⌊st.capital * ps / price⌋ ≤ 0 → btStep ps st i (price, sig) = st)
    ∧ ∀ (c : ℚ) (s s' : ℤ) (rest : List (ℚ × ℤ)) (init : ℚ),
        backtest_strategy ((c, s) :: rest) init ps =
          backtest_strategy ((c, s') :: rest) init ps := by
  have hq : (0 : ℚ) ≤ st.capital * ps / price :=
    div_nonneg (mul_nonneg hcap hps) hprice.le
  have hpy : pyInt (st.capital * ps / price) = ⌊st.capital * ps / price⌋ :=
    pyInt_eq_floor hq
  refine ⟨?_, ?_, ?_⟩
  · intro hsh
    simp only [btStep, hpy, if_pos (And.intro hsig hflat), if_pos hsh]
  · intro hsh
    simp only [btStep, hpy, if_pos (And.intro hsig hflat), if_neg (not_lt.mpr hsh)]
  · intro c s s' rest init
    cases rest with
    | nil => rfl
    | cons r rs =>
      simp only [backtest_strategy, List.drop_succ_cons, List.drop_zero]
      rw [applyForcedClose_congr ((c, s) :: r :: rs) ((c, s') :: r :: rs)
        (by rw [List.getLast?_cons_cons, List.getLast?_cons_cons]) (by simp)]

/-- Witness for C5: the concrete buy of the C1 scenario (bar 1, price 12,
signal 1, cash 1000, fraction 1). -/
theorem c5_buy_rule_witness :
    0 < ⌊(1000 : ℚ) * 1 / 12⌋ ∧
      btStep 1 ⟨1000, 0, []⟩ 1 (12, 1) =
        { capital := 1000 - (⌊(1000 : ℚ) * 1 / 12⌋ : ℚ) * 12
          position := ⌊(1000 : ℚ) * 1 / 12⌋
          trades := [⟨1, .buy, 12, ⌊(1000 : ℚ) * 1 / 12⌋,
            (⌊(1000 : ℚ) * 1 / 12⌋ : ℚ) * 12, 1000 - (⌊(1000 : ℚ) * 1 / 12⌋ : ℚ) * 12⟩] } := by
  have hfl : (0 : ℤ) < ⌊(1000 : ℚ) * 1 / 12⌋ := by norm_num
  have h := (c5_buy_rule 1 ⟨1000, 0, []⟩ 1 12 1 (by norm_num) rfl (by norm_num)
    (by norm_num) (by norm_num)).1 hfl
  exact ⟨hfl, by simpa using h⟩

/-- C4 (counterexample): on prices [10, 12, 12] with signal [0, 1, -1] the
single round trip has zero profit, which the source counts as a loss of 0:
`total_loss == 0` makes the profit factor `inf` even though gross profit is
not positive, refuting the claimed characterisation. -/
theorem c4_counterexample :
    ¬ (((backtest_strategy [(10, 0), (12, 1), (12, -1)] 1000 1).2.profitFactor =
          ProfitFactor.inf ↔
        ((backtest_strategy [(10, 0), (12, 1), (12, -1)] 1000 1).2.totalLoss = 0 ∧
          0 < (backtest_strategy [(10, 0), (12, 1), (12, -1)] 1000 1).2.totalProfit))
      ∧ ((backtest_strategy [(10, 0), (12, 1), (12, -1)] 1000 1).2.profitFactor =
          ProfitFactor.val 0 ↔
        (backtest_strategy [(10, 0), (12, 1), (12, -1)] 1000 1).2.numTrades = 0)) := by
  norm_num +decide [backtest_strategy, runBars, btStep, pyInt, applyForcedClose, mkSummary,
    winningCount, tradePairs, buyTrades, sellTrades, pairProfit, grossProfit, grossLoss,
    holdingSum, avgHoldingDays, List.filter_cons, List.filter_nil, List.zip_cons_cons,
    List.zip_nil_right, List.zip_nil_left, List.map_cons, List.map_nil, List.sum_cons,
    List.sum_nil, decide_eq_true_eq, Bool.or_eq_true]

/-- C4 (amended): the profit factor is `inf` iff the ledger is nonempty and
gross loss is 0 (whether or not gross profit is positive); it is 0 iff the
ledger is empty, or gross loss is nonzero while gross profit is 0. -/
theorem c4_profit_factor (bars : List (ℚ × ℤ)) (init ps : ℚ) :
    ((backtest_strategy bars init ps).2.profitFactor = ProfitFactor.inf ↔
      ((backtest_strategy bars init ps).1 ≠ [] ∧
        (backtest_strategy bars init ps).2.totalLoss = 0))
    ∧ ((backtest_strategy bars init ps).2.profitFactor = ProfitFactor.val 0 ↔
      ((backtest_strategy bars init ps).1 = [] ∨
        ((backtest_strategy bars init ps).2.totalLoss ≠ 0 ∧
          (backtest_strategy bars init ps).2.totalProfit = 0))) := by
  simp only [backtest_strategy]
  generalize applyForcedClose bars (runBars ps ⟨init, 0, []⟩ 1 (bars.drop 1)) = st
  by_cases hlen : st.trades.length = 0
  · have hnil : st.trades = [] := List.length_eq_zero.mp hlen
    simp [mkSummary, hlen, hnil]
  · have hne : st.trades ≠ [] := fun h => hlen (by simp [h])
    by_cases hgl : grossLoss st.trades = 0
    · simp [mkSummary, hlen, hgl, hne]
    · simp [mkSummary, hlen, hgl, hne, abs_eq_zero, div_eq_zero_iff]

/-- Every ledger row is either a buy row or a sell / forced-close row. -/
theorem buy_add_sell_length (ts : List Trade) :
    (buyTrades ts).length + (sellTrades ts).length = ts.length := by
  induction ts with
  | nil => rfl
  | cons t ts ih =>
    cases hk : t.kind <;>
      simp only [buyTrades, sellTrades, List.filter_cons, hk] at * <;>
      simp_all <;> omega

theorem winningCount_le_pairs (ts : List Trade) :
    winningCount ts ≤ (tradePairs ts).length :=
  List.length_filter_le _ _

/-- C10: with a nonempty ledger, the reported win rate divides the number of
winning pairs by the TOTAL number of ledger rows (buys plus sells plus
forced closes), so it can never exceed 50%. -/
theorem c10_win_rate (bars : List (ℚ × ℤ)) (init ps : ℚ)
    (h : (backtest_strategy bars init ps).1 ≠ []) :
    (backtest_strategy bars init ps).2.winRate =
      (winningCount (backtest_strategy bars init ps).1 : ℚ) /
        ((backtest_strategy bars init ps).1.length : ℚ) * 100
    ∧ (backtest_strategy bars init ps).2.winRate ≤ 50 := by
  revert h
  simp only [backtest_strategy]
  generalize applyForcedClose bars (runBars ps ⟨init, 0, []⟩ 1 (bars.drop 1)) = st
  intro h
  have hlen : st.trades.length ≠ 0 := fun h0 => h (List.length_eq_zero.mp h0)
  have hrate : (mkSummary init st).winRate =
      (winningCount st.trades : ℚ) / (st.trades.length : ℚ) * 100 := by
    simp [mkSummary, hlen]
  refine ⟨hrate, ?_⟩
  rw [hrate]
  have hw2 : 2 * winningCount st.trades ≤ st.trades.length := by
    have h1 := winningCount_le_pairs st.trades
    have h2 : (tradePairs st.trades).length =
        min (buyTrades st.trades).length (sellTrades st.trades).length := by
      simp [tradePairs]
    have h3 := buy_add_sell_length st.trades
    omega
  have hlpos : (0 : ℚ) < (st.trades.length : ℚ) := by
    exact_mod_cast Nat.pos_of_ne_zero hlen
  rw [div_mul_eq_mul_div, div_le_iff₀ hlpos]
  have : ((winningCount st.trades : ℚ)) * 2 ≤ (st.trades.length : ℚ) := by
    exact_mod_cast by omega
  nlinarith

/-- Witness for C10 at the C1 scenario. -/
theorem c10_win_rate_witness :
    (backtest_strategy [(10, 0), (12, 1), (8, -1), (15, 0)] 1000 1).1 ≠ [] ∧
    ((backtest_strategy [(10, 0), (12, 1), (8, -1), (15, 0)] 1000 1).2.winRate =
      (winningCount (backtest_strategy [(10, 0), (12, 1), (8, -1), (15, 0)] 1000 1).1 : ℚ) /
        (((backtest_strategy [(10, 0), (12, 1), (8, -1), (15, 0)] 1000 1).1.length : ℚ)) * 100
     ∧ (backtest_strategy [(10, 0), (12, 1), (8, -1), (15, 0)] 1000 1).2.winRate ≤ 50) := by
  have hne : (backtest_strategy [(10, 0), (12, 1), (8, -1), (15, 0)] 1000 1).1 ≠ [] := by
    norm_num +decide [backtest_strategy, runBars, btStep, pyInt, applyForcedClose]
  exact ⟨hne, c10_win_rate _ 1000 1 hne⟩

/-- Cash / position state of the equity-curve replay in `plot_equity_curve`. -/
structure EqState where
  capital : ℚ
  position : ℤ
deriving DecidableEq, Repr

/-- Lines 204–205: the initial capital is re-derived from the first ledger
row as `剩餘資金 + 成本`.  The `成本` column exists iff some row is a buy, and
in every ledger this engine produces the first row is a buy whenever any row
is; the remaining case (a non-buy first row, whose `成本` cell would be a
missing value) is therefore unreachable and is mapped to the source's
no-buy-column default of 1000000. -/
def inferredInitial (ts : List Trade) : ℚ :=
  match ts with
  | [] => 1000000
  | t :: _ => if t.kind = .buy then t.remaining + t.flow else 1000000

/-- Lines 217–222: a buy deducts its `成本` and installs the position; a sell
or forced close adds its `所得` and flattens the position. -/
def eqNext (st : EqState) (t : Trade) : EqState :=
  if t.kind = .buy then ⟨st.capital - t.flow, t.shares⟩ else ⟨st.capital + t.flow, 0⟩

/-- Lines 224–228: the equity point after a trade is cash plus mark-to-market
value of the open position, the latter only when the trade date is in the
price index. -/
def eqVal (bars : List (ℚ × ℤ)) (st : EqState) (t : Trade) : ℚ :=
  if 0 < st.position ∧ t.date < bars.length then
    st.capital + (st.position : ℚ) * (bars.getD t.date (0, 0)).1
  else st.capital

/-- The ledger replay loop of `plot_equity_curve` (lines 214–231): one equity
point per trade, plus the final cash/position state. -/
def equityWalk (bars : List (ℚ × ℤ)) : EqState → List Trade → List ℚ × EqState
  | st, [] => ([], st)
  | st, t :: rest =>
    (eqVal bars (eqNext st t) t :: (equityWalk bars (eqNext st t) rest).1,
      (equityWalk bars (eqNext st t) rest).2)

/-- Lines 234–239: the synthetic trailing equity point at the final price
date.  `df['Close'].iloc[-1]` cannot be evaluated on an empty price table;
that case is unreachable here (a nonempty ledger forces nonempty bars) and
defaults to 0. -/
def finalTrailing (bars : List (ℚ × ℤ)) (st : EqState) : ℚ :=
  if 0 < st.position then
    st.capital + (st.position : ℚ) * ((bars.getLast?.map Prod.fst).getD 0)
  else st.capital

/-- The `dates[-1]` value after the replay: the last trade's date. -/
def lastTradeDate (ts : List Trade) : ℕ := (ts.getLast?.map Trade.date).getD 0

/-- The equity-curve values of `plot_equity_curve`: the inferred starting
capital, one point per trade, and the trailing point when the last trade is
not on the final price date.  An empty ledger produces no curve (the source
prints a message and returns early, line 171–173). -/
def equityCurve (bars : List (ℚ × ℤ)) (ts : List Trade) : List ℚ :=
  if ts = [] then []
  else if lastTradeDate ts ≠ bars.length - 1 then
    (inferredInitial ts :: (equityWalk bars ⟨inferredInitial ts, 0⟩ ts).1) ++
      [finalTrailing bars (equityWalk bars ⟨inferredInitial ts, 0⟩ ts).2]
  else
    inferredInitial ts :: (equityWalk bars ⟨inferredInitial ts, 0⟩ ts).1

theorem equityWalk_final_capital (bars : List (ℚ × ℤ)) :
    ∀ (ts : List Trade) (st : EqState),
      (equityWalk bars st ts).2.capital = st.capital + sellFlowSum ts - buyFlowSum ts := by
  intro ts
  induction ts with
  | nil =>
    intro st
    simp [equityWalk, buyFlowSum, sellFlowSum, buyTrades, sellTrades]
  | cons t rest ih =>
    intro st
    simp only [equityWalk]
    rw [ih]
    cases hk : t.kind <;>
      simp +decide [eqNext, hk, buyFlowSum, sellFlowSum, buyTrades, sellTrades,
        List.filter_cons] <;>
      ring

theorem equityWalk_length (bars : List (ℚ × ℤ)) :
    ∀ (ts : List Trade) (st : EqState),
      (equityWalk bars st ts).1.length = ts.length := by
  intro ts
  induction ts with
  | nil => intro st; rfl
  | cons t rest ih => intro st; simp [equityWalk, ih]

theorem equityWalk_final_position (bars : List (ℚ × ℤ)) :
    ∀ (ts : List Trade) (st : EqState) (t : Trade), ts.getLast? = some t →
      t.kind ≠ .buy → (equityWalk bars st ts).2.position = 0 := by
  intro ts
  induction ts with
  | nil => intro st t h; simp at h
  | cons u rest ih =>
    intro st t hlast hbuy
    cases rest with
    | nil =>
      simp only [List.getLast?_singleton, Option.some.injEq] at hlast
      subst hlast
      simp [equityWalk, eqNext, if_neg hbuy]
    | cons r rs =>
      rw [List.getLast?_cons_cons] at hlast
      simpa [equityWalk] using ih (eqNext st u) t hlast hbuy

theorem equityWalk_last_val (bars : List (ℚ × ℤ)) :
    ∀ (ts : List Trade) (st : EqState), ts ≠ [] →
      ∃ t, ts.getLast? = some t ∧
        (equityWalk bars st ts).1.getLast? =
          some (eqVal bars (equityWalk bars st ts).2 t) := by
  intro ts
  induction ts with
  | nil => intro st h; exact absurd rfl h
  | cons u rest ih =>
    intro st _
    cases rest with
    | nil => exact ⟨u, rfl, rfl⟩
    | cons r rs =>
      obtain ⟨t, hlast, hval⟩ := ih (eqNext st u) (by simp)
      refine ⟨t, by rw [List.getLast?_cons_cons]; exact hlast, ?_⟩
      have hne : (equityWalk bars (eqNext st u) (r :: rs)).1 ≠ [] := by
        intro h0
        have hlen := equityWalk_length bars (r :: rs) (eqNext st u)
        rw [h0] at hlen
        simp at hlen
      obtain ⟨y, ys, hys⟩ := List.exists_cons_of_ne_nil hne
      show (eqVal bars (eqNext st u) u ::
          (equityWalk bars (eqNext st u) (r :: rs)).1).getLast? =
        some (eqVal bars (equityWalk bars (eqNext st u) (r :: rs)).2 t)
      rw [hys, List.getLast?_cons_cons, ← hys]
      exact hval

theorem mkSummary_final (initial : ℚ) (st : BTState) :
    (mkSummary initial st).finalCapital = st.capital := by
  simp only [mkSummary]
  split <;> rfl

/-- C3: for every backtest, the reported final capital equals the initial
capital plus all sell and forced-close proceeds minus all buy costs, and on
a nonempty ledger the last point of the reconstructed equity curve equals
that same final capital. -/
theorem c3_capital_identity (bars : List (ℚ × ℤ)) (init ps : ℚ) :
    (backtest_strategy bars init ps).2.finalCapital =
      init + sellFlowSum (backtest_strategy bars init ps).1
        - buyFlowSum (backtest_strategy bars init ps).1
    ∧ ((backtest_strategy bars init ps).1 ≠ [] →
        (equityCurve bars (backtest_strategy bars init ps).1).getLast? =
          some ((backtest_strategy bars init ps).2.finalCapital)) := by
  have hinv : engineInv init (runBars ps ⟨init, 0, []⟩ 1 (bars.drop 1)) :=
    runBars_inv _ _ _ (engineInv_start init)
  have hbars : 0 < (runBars ps ⟨init, 0, []⟩ 1 (bars.drop 1)).position → bars ≠ [] := by
    intro hpos hnil
    subst hnil
    simp [runBars_nil_eq] at hpos
  obtain ⟨hflat, hflow, hhead, hclose⟩ := applyForcedClose_final bars hinv hbars
  simp only [backtest_strategy, mkSummary_final]
  refine ⟨hflow, ?_⟩
  intro hne
  set st := applyForcedClose bars (runBars ps ⟨init, 0, []⟩ 1 (bars.drop 1)) with hst
  have hinit : inferredInitial st.trades = init := by
    obtain ⟨t0, rest, hts⟩ := List.exists_cons_of_ne_nil hne
    have h0 := hhead t0 (by rw [hts]; rfl)
    rw [hts]
    simp only [inferredInitial]
    rw [if_pos h0.1, h0.2]
  obtain ⟨tl, htl, hk⟩ := hclose.resolve_left hne
  have htlk : tl.kind ≠ .buy := by
    rcases hk with h | h <;> rw [h] <;> exact fun hcon => nomatch hcon
  have hpos0 : (equityWalk bars ⟨inferredInitial st.trades, 0⟩ st.trades).2.position = 0 :=
    equityWalk_final_position bars st.trades _ tl htl htlk
  have hcap : (equityWalk bars ⟨inferredInitial st.trades, 0⟩ st.trades).2.capital =
      st.capital := by
    rw [equityWalk_final_capital, hinit, hflow]
  obtain ⟨tl2, htl2, hval⟩ := equityWalk_last_val bars st.trades
    ⟨inferredInitial st.trades, 0⟩ hne
  have hvalcap : (equityWalk bars ⟨inferredInitial st.trades, 0⟩ st.trades).1.getLast? =
      some st.capital := by
    rw [hval, eqVal, if_neg (by rw [hpos0]; intro hcon; exact absurd hcon.1 (by norm_num))]
    rw [hcap]
  simp only [equityCurve, if_neg hne]
  by_cases hdate : lastTradeDate st.trades ≠ bars.length - 1
  · rw [if_pos hdate, List.getLast?_concat]
    rw [finalTrailing, if_neg (by rw [hpos0]; norm_num), hcap]
  · rw [if_neg hdate]
    have hwne : (equityWalk bars ⟨inferredInitial st.trades, 0⟩ st.trades).1 ≠ [] := by
      intro h0
      have hlen := equityWalk_length bars st.trades ⟨inferredInitial st.trades, 0⟩
      rw [h0] at hlen
      exact hne (List.length_eq_zero.mp hlen.symm)
    obtain ⟨y, ys, hys⟩ := List.exists_cons_of_ne_nil hwne
    rw [hys, List.getLast?_cons_cons, ← hys]
    exact hvalcap

/-- Witness for C3 at the C1 scenario (nonempty ledger). -/
theorem c3_capital_identity_witness :
    (backtest_strategy [(10, 0), (12, 1), (8, -1), (15, 0)] 1000 1).1 ≠ [] ∧
    (equityCurve [(10, 0), (12, 1), (8, -1), (15, 0)]
        (backtest_strategy [(10, 0), (12, 1), (8, -1), (15, 0)] 1000 1).1).getLast? =
      some ((backtest_strategy [(10, 0), (12, 1), (8, -1), (15, 0)] 1000 1).2.finalCapital) := by
  have hne : (backtest_strategy [(10, 0), (12, 1), (8, -1), (15, 0)] 1000 1).1 ≠ [] := by
    norm_num +decide [backtest_strategy, runBars, btStep, pyInt, applyForcedClose]
  exact ⟨hne, (c3_capital_identity [(10, 0), (12, 1), (8, -1), (15, 0)] 1000 1).2 hne⟩

/-- `Close.pct_change(n)`: entry `i` is `close[i] / close[i-n] - 1`, missing
(`NaN`) for the first `n` entries.  (The closes list holds no missing values,
so the `fill_method` padding of pandas is vacuous.) -/
def pctChange (n : ℕ) (xs : List ℚ) : List (Option ℚ) :=
  (List.range xs.length).map fun i =>
    if n ≤ i then some (xs.getD i 0 / xs.getD (i - n) 0 - 1) else none

/-- `.shift(-n)`: entry `i` becomes the entry previously at `i + n`, missing
for the final `n` positions. -/
def shiftNeg (n : ℕ) (xs : List (Option ℚ)) : List (Option ℚ) :=
  (List.range xs.length).map fun i =>
    if i + n < xs.length then xs.getD (i + n) none else none

/-- The `Return_{n}d` column (line 11 of `evaluation.py`):
`Close.pct_change(n).shift(-n)`. -/
def fwdReturnSeries (closes : List ℚ) (n : ℕ) : List (Option ℚ) :=
  shiftNeg n (pctChange n closes)

/-- pandas `Series.mean()` over the present values: `NaN` on an empty
series, otherwise sum over length. -/
def qmean (xs : List ℚ) : Option ℚ :=
  if xs = [] then none else some (xs.sum / (xs.length : ℚ))

/-- Row indices where the signal column is `> 0` (`data[signal_col] > 0`). -/
def buyTriggerDates (n : ℕ) (sig : List ℤ) : List ℕ :=
  (List.range n).filter fun d => decide (0 < sig.getD d 0)

/-- Row indices where the signal column is `< 0`. -/
def sellTriggerDates (n : ℕ) (sig : List ℤ) : List ℕ :=
  (List.range n).filter fun d => decide (sig.getD d 0 < 0)

/-- The present (`~isna`) forward returns over a date subset, in row order:
the `[~ ... isna()]` filter of lines 33, 42, 51–53. -/
def validReturns (closes : List ℚ) (h : ℕ) (dates : List ℕ) : List ℚ :=
  dates.filterMap fun d => (fwdReturnSeries closes h).getD d none

/-- One row of the evaluator's results table (lines 63–73). -/
structure AccuracyRecord where
  buySignals : ℕ
  sellSignals : ℕ
  totalSignals : ℕ
  buyAccuracy : Option ℚ
  sellAccuracy : Option ℚ
  totalAccuracy : Option ℚ
  buyReturn : Option ℚ
  sellReturn : Option ℚ
deriving DecidableEq, Repr

/-- The per-column body of `evaluate_individual_signals` (lines 19–73):
`none` models the `continue` for a column with no signals.  Accuracies are
means over the `~isna`-filtered returns; returns are means of the raw
return column (pandas drops `NaN` when averaging, hence `validReturns`). -/
def evalColumn (closes : List ℚ) (sig : List ℤ) (h : ℕ) : Option AccuracyRecord :=
  if (buyTriggerDates closes.length sig).length +
      (sellTriggerDates closes.length sig).length = 0 then none
  else
    some
      { buySignals := (buyTriggerDates closes.length sig).length
        sellSignals := (sellTriggerDates closes.length sig).length
        totalSignals := (buyTriggerDates closes.length sig).length +
          (sellTriggerDates closes.length sig).length
        buyAccuracy :=
          if 0 < (buyTriggerDates closes.length sig).length then
            qmean ((validReturns closes h (buyTriggerDates closes.length sig)).map
              fun r => if 0 < r then (1 : ℚ) else 0)
          else none
        sellAccuracy :=
          if 0 < (sellTriggerDates closes.length sig).length then
            qmean ((validReturns closes h (sellTriggerDates closes.length sig)).map
              fun r => if r < 0 then (1 : ℚ) else 0)
          else none
        totalAccuracy :=
          if 0 < (buyTriggerDates closes.length sig).length ∧
              0 < (sellTriggerDates closes.length sig).length then
            if 0 < (validReturns closes h (buyTriggerDates closes.length sig)).length +
                (validReturns closes h (sellTriggerDates closes.length sig)).length then
              some
                ((((validReturns closes h (buyTriggerDates closes.length sig)).filter
                      fun r => decide (0 < r)).length +
                    ((validReturns closes h (sellTriggerDates closes.length sig)).filter
                      fun r => decide (r < 0)).length : ℚ) /
                  (((validReturns closes h (buyTriggerDates closes.length sig)).length +
                    (validReturns closes h (sellTriggerDates closes.length sig)).length : ℕ) : ℚ))
            else none
          else if 0 < (buyTriggerDates closes.length sig).length then
            qmean ((validReturns closes h (buyTriggerDates closes.length sig)).map
              fun r => if 0 < r then (1 : ℚ) else 0)
          else if 0 < (sellTriggerDates closes.length sig).length then
            qmean ((validReturns closes h (sellTriggerDates closes.length sig)).map
              fun r => if r < 0 then (1 : ℚ) else 0)
          else none
        buyReturn :=
          if 0 < (buyTriggerDates closes.length sig).length then
            (qmean (validReturns closes h (buyTriggerDates closes.length sig))).map
              fun m => m * 100
          else none
        sellReturn :=
          if 0 < (sellTriggerDates closes.length sig).length then
            (qmean (validReturns closes h (sellTriggerDates closes.length sig))).map
              fun m => -m * 100
          else none }

/-- `evaluate_individual_signals` over a list of signal columns: the rows of
surviving columns in order.  `pd.DataFrame(results).set_index('Signal')`
raises a `KeyError` when `results` is empty (the frame then has no `Signal`
column); that raise is modelled as `none`. -/
def evaluate_individual_signals (closes : List ℚ) (sigs : List (List ℤ)) (h : ℕ) :
    Option (List AccuracyRecord) :=
  if (sigs.filterMap fun s => evalColumn closes s h) = [] then none
  else some (sigs.filterMap fun s => evalColumn closes s h)

/-- The truth value of `Return > 0` on a possibly missing return: pandas
compares `NaN > 0` as `False` (no `isna` filter in the combination
analyzer, line 113). -/
def retPos (rets : List (Option ℚ)) (d : ℕ) : Bool :=
  match rets.getD d none with
  | some r => decide (0 < r)
  | none => false

/-- The truth value of `Return < 0` on a possibly missing return. -/
def retNeg (rets : List (Option ℚ)) (d : ℕ) : Bool :=
  match rets.getD d none with
  | some r => decide (r < 0)
  | none => false

/-- One `buy_mask = buy_mask & (df[ind] > 0)` step (lines 97–98). -/
def buyMaskStep (n : ℕ) (m : List Bool) (c : List ℤ) : List Bool :=
  (List.range n).map fun d => m.getD d false && decide (0 < c.getD d 0)

/-- One `sell_mask = sell_mask & (df[ind] < 0)` step (lines 102–103). -/
def sellMaskStep (n : ℕ) (m : List Bool) (c : List ℤ) : List Bool :=
  (List.range n).map fun d => m.getD d false && decide (c.getD d 0 < 0)

/-- The composite buy mask: initialised from `combo[0]` and folded over the
remaining members (lines 96–98). -/
def comboBuyMask (n : ℕ) (c0 : List ℤ) (rest : List (List ℤ)) : List Bool :=
  rest.foldl (buyMaskStep n) ((List.range n).map fun d => decide (0 < c0.getD d 0))

/-- The composite sell mask (lines 101–103). -/
def comboSellMask (n : ℕ) (c0 : List ℤ) (rest : List (List ℤ)) : List Bool :=
  rest.foldl (sellMaskStep n) ((List.range n).map fun d => decide (c0.getD d 0 < 0))

/-- Row indices selected by the composite buy mask (`df[buy_mask]`). -/
def comboBuyDates (n : ℕ) (c0 : List ℤ) (rest : List (List ℤ)) : List ℕ :=
  (List.range n).filter fun d => (comboBuyMask n c0 rest).getD d false

/-- Row indices selected by the composite sell mask. -/
def comboSellDates (n : ℕ) (c0 : List ℤ) (rest : List (List ℤ)) : List ℕ :=
  (List.range n).filter fun d => (comboSellMask n c0 rest).getD d false

/-- One row of the combination analyzer's results (lines 128–137). -/
structure ComboRecord where
  indicators : List (List ℤ)
  buySignals : ℕ
  sellSignals : ℕ
  buyAccuracy : Option ℚ
  sellAccuracy : Option ℚ
  buyReturn : Option ℚ
  sellReturn : Option ℚ
  totalSignals : ℕ
deriving DecidableEq, Repr

/-- Scoring of one combination (lines 105–124).  Unlike `evalColumn`, the
accuracy means run over ALL masked dates — a missing forward return compares
as `False` (`retPos` / `retNeg`) and stays in the denominator; the return
means still skip missing values (pandas `mean`). -/
def scoreCombo (closes : List ℚ) (c0 : List ℤ) (rest : List (List ℤ)) (h : ℕ) :
    ComboRecord :=
  { indicators := c0 :: rest
    buySignals := (comboBuyDates closes.length c0 rest).length
    sellSignals := (comboSellDates closes.length c0 rest).length
    buyAccuracy :=
      if 0 < (comboBuyDates closes.length c0 rest).length then
        qmean ((comboBuyDates closes.length c0 rest).map
          fun d => if retPos (fwdReturnSeries closes h) d then (1 : ℚ) else 0)
      else none
    sellAccuracy :=
      if 0 < (comboSellDates closes.length c0 rest).length then
        qmean ((comboSellDates closes.length c0 rest).map
          fun d => if retNeg (fwdReturnSeries closes h) d then (1 : ℚ) else 0)
      else none
    buyReturn :=
      if 0 < (comboBuyDates closes.length c0 rest).length then
        (qmean (validReturns closes h (comboBuyDates closes.length c0 rest))).map
          fun m => m * 100
      else none
    sellReturn :=
      if 0 < (comboSellDates closes.length c0 rest).length then
        (qmean (validReturns closes h (comboSellDates closes.length c0 rest))).map
          fun m => -m * 100
      else none
    totalSignals := (comboBuyDates closes.length c0 rest).length +
      (comboSellDates closes.length c0 rest).length }

/-- `itertools.combinations`: all sorted index subsets of the given size, in
the order Python enumerates them. -/
def combinations {α : Type} : ℕ → List α → List (List α)
  | 0, _ => [[]]
  | _ + 1, [] => []
  | n + 1, x :: xs => (combinations n xs).map (fun c => x :: c) ++ combinations (n + 1) xs

/-- `analyze_signal_combinations` (lines 91–137): subsets of size
`range(2, min(len(indicators) + 1, 4))`, each scored and kept only when it
produced at least one buy or sell signal (line 127).  The `[]` arm of the
inner match is unreachable (`combinations` with `i ≥ 2` yields lists of
length `i`).  The final `sort_values` ranking only reorders rows and is not
modelled; the claims under verification concern membership. -/
def analyze_signal_combinations (closes : List ℚ) (indicators : List (List ℤ)) (h : ℕ) :
    List ComboRecord :=
  (List.range' 2 (min (indicators.length + 1) 4 - 2)).flatMap fun i =>
    (combinations i indicators).filterMap fun combo =>
      match combo with
      | [] => none
      | c0 :: rest =>
          if 0 < (scoreCombo closes c0 rest h).buySignals ∨
              0 < (scoreCombo closes c0 rest h).sellSignals then
            some (scoreCombo closes c0 rest h)
          else none

theorem getD_map_range {α : Type} (n d : ℕ) (f : ℕ → α) (x : α) (hd : d < n) :
    ((List.range n).map f).getD d x = f d := by
  rw [List.getD_eq_getElem?_getD, List.getElem?_map, List.getElem?_range hd]
  rfl

theorem pctChange_length (n : ℕ) (xs : List ℚ) : (pctChange n xs).length = xs.length := by
  simp [pctChange]

/-- The indicator sum of a mean-of-booleans is the count of hits. -/
theorem indicator_sum (xs : List ℚ) (p : ℚ → Prop) [DecidablePred p] :
    (xs.map fun r => if p r then (1 : ℚ) else 0).sum =
      ((xs.filter fun r => decide (p r)).length : ℚ) := by
  induction xs with
  | nil => simp
  | cons x xs ih =>
    by_cases hp : p x
    · simp [List.filter_cons, hp, ih]
      ring
    · simp [List.filter_cons, hp, ih]

/-- A mean of 0/1 indicators is hit count over length. -/
theorem qmean_indicator (xs : List ℚ) (p : ℚ → Prop) [DecidablePred p] (hne : xs ≠ []) :
    qmean (xs.map fun r => if p r then (1 : ℚ) else 0) =
      some (((xs.filter fun r => decide (p r)).length : ℚ) / (xs.length : ℚ)) := by
  rw [qmean, if_neg (by simpa using hne), indicator_sum, List.length_map]

theorem validReturns_ne_nil_dates {closes : List ℚ} {h : ℕ} {dates : List ℕ}
    (hv : validReturns closes h dates ≠ []) : dates ≠ [] := by
  intro h0
  exact hv (by rw [validReturns, h0]; rfl)

/-- C6: the forward-return column holds `(close[d+h] - close[d]) / close[d]`,
undefined exactly on the final `h` dates; and the evaluator's buy and sell
accuracies divide by the number of triggered dates WITH a defined forward
return — triggered dates with an undefined return are dropped, not counted
as failures. -/
theorem c6_forward_return (closes : List ℚ) (sig : List ℤ) (h d : ℕ)
    (hd : d < closes.length) (hc : closes.getD d 0 ≠ 0) :
    ((fwdReturnSeries closes h).getD d none =
      if d + h < closes.length then
        some ((closes.getD (d + h) 0 - closes.getD d 0) / closes.getD d 0)
      else none)
    ∧ (∀ ar, evalColumn closes sig h = some ar →
        (validReturns closes h (buyTriggerDates closes.length sig) ≠ [] →
          ar.buyAccuracy = some
            ((((validReturns closes h (buyTriggerDates closes.length sig)).filter
                fun r => decide (0 < r)).length : ℚ) /
              ((validReturns closes h (buyTriggerDates closes.length sig)).length : ℚ)))
        ∧ (validReturns closes h (sellTriggerDates closes.length sig) ≠ [] →
          ar.sellAccuracy = some
            ((((validReturns closes h (sellTriggerDates closes.length sig)).filter
                fun r => decide (r < 0)).length : ℚ) /
              ((validReturns closes h (sellTriggerDates closes.length sig)).length : ℚ)))) := by
  constructor
  · rw [fwdReturnSeries, shiftNeg, pctChange_length, getD_map_range _ _ _ _ hd]
    by_cases hdh : d + h < closes.length
    · rw [if_pos hdh, if_pos hdh, pctChange,
        getD_map_range _ _ _ _ hdh, if_pos (Nat.le_add_left h d), Nat.add_sub_cancel]
      rw [sub_div, div_self hc]
    · rw [if_neg hdh, if_neg hdh]
  · intro ar har
    rw [evalColumn] at har
    split at har
    · exact absurd har (by simp)
    · rw [Option.some_inj] at har
      subst har
      constructor
      · intro hv
        have hbd : 0 < (buyTriggerDates closes.length sig).length :=
          List.length_pos.mpr (validReturns_ne_nil_dates hv)
        simp only [if_pos hbd]
        exact qmean_indicator _ _ hv
      · intro hv
        have hsd : 0 < (sellTriggerDates closes.length sig).length :=
          List.length_pos.mpr (validReturns_ne_nil_dates hv)
        simp only [if_pos hsd]
        exact qmean_indicator _ _ hv

/-- Witness for C6: closes [10, 11, 9], signal [1, -1, 0], horizon 1.  Date 0
has forward return 1/10; both accuracy denominators are the valid counts. -/
theorem c6_forward_return_witness :
    (fwdReturnSeries [10, 11, 9] 1).getD 0 none = some (1 / 10)
    ∧ validReturns [10, 11, 9] 1 (buyTriggerDates 3 [1, -1, 0]) ≠ []
    ∧ ∀ ar, evalColumn [10, 11, 9] [1, -1, 0] 1 = some ar →
        ar.buyAccuracy = some
          ((((validReturns [10, 11, 9] 1 (buyTriggerDates 3 [1, -1, 0])).filter
              fun r => decide (0 < r)).length : ℚ) /
            ((validReturns [10, 11, 9] 1 (buyTriggerDates 3 [1, -1, 0])).length : ℚ)) := by
  have hmain := c6_forward_return [10, 11, 9] [1, -1, 0] 1 0 (by norm_num) (by norm_num)
  have hv : validReturns [10, 11, 9] 1 (buyTriggerDates 3 [1, -1, 0]) ≠ [] := by
    norm_num +decide [validReturns, buyTriggerDates, fwdReturnSeries, pctChange, shiftNeg,
      List.range_succ, List.filter_cons, List.filter_nil, List.filterMap_cons,
      List.getD_cons_zero, List.getD_cons_succ]
  refine ⟨?_, hv, ?_⟩
  · rw [hmain.1]
    norm_num [List.getD_cons_zero, List.getD_cons_succ]
  · intro ar har
    have hlen : ([(10 : ℚ), 11, 9]).length = 3 := by norm_num
    rw [hlen] at hmain
    exact (hmain.2 ar har).1 hv

/-- When every date has a present return, the evaluator's filtered indicator
list coincides with the combination analyzer's all-dates indicator list for
the buy side. -/
theorem filterMap_retPos_map (rets : List (Option ℚ)) (dates : List ℕ)
    (hall : ∀ d ∈ dates, (rets.getD d none).isSome) :
    (dates.filterMap fun d => rets.getD d none).map
        (fun r => if 0 < r then (1 : ℚ) else 0) =
      dates.map fun d => if retPos rets d then (1 : ℚ) else 0 := by
  induction dates with
  | nil => rfl
  | cons d ds ih =>
    obtain ⟨r, hr⟩ := Option.isSome_iff_exists.mp (hall d (List.mem_cons_self d ds))
    simp only [List.filterMap_cons, hr, List.map_cons]
    rw [ih fun x hx => hall x (List.mem_cons_of_mem d hx)]
    have hr2 : rets[d]?.getD none = some r := by
      rw [← List.getD_eq_getElem?_getD]
      exact hr
    congr 1
    simp [retPos, hr2]

/-- The sell-side analogue of `filterMap_retPos_map`. -/
theorem filterMap_retNeg_map (rets : List (Option ℚ)) (dates : List ℕ)
    (hall : ∀ d ∈ dates, (rets.getD d none).isSome) :
    (dates.filterMap fun d => rets.getD d none).map
        (fun r => if r < 0 then (1 : ℚ) else 0) =
      dates.map fun d => if retNeg rets d then (1 : ℚ) else 0 := by
  induction dates with
  | nil => rfl
  | cons d ds ih =>
    obtain ⟨r, hr⟩ := Option.isSome_iff_exists.mp (hall d (List.mem_cons_self d ds))
    simp only [List.filterMap_cons, hr, List.map_cons]
    rw [ih fun x hx => hall x (List.mem_cons_of_mem d hx)]
    have hr2 : rets[d]?.getD none = some r := by
      rw [← List.getD_eq_getElem?_getD]
      exact hr
    congr 1
    simp [retNeg, hr2]

/-- C7 (counterexample): closes [10, 11], horizon 1, a signal column [1, 1]
and the combination of that column with itself.  The trigger sets agree, yet
the evaluator reports buy accuracy 1 (date 1's missing return is dropped)
while the combination analyzer reports 1/2 (date 1 is kept as a failure). -/
theorem c7_counterexample :
    comboBuyDates 2 [1, 1] [[1, 1]] = buyTriggerDates 2 [1, 1]
    ∧ comboSellDates 2 [1, 1] [[1, 1]] = sellTriggerDates 2 [1, 1]
    ∧ (evalColumn [10, 11] [1, 1] 1).map AccuracyRecord.buyAccuracy = some (some 1)
    ∧ (scoreCombo [10, 11] [1, 1] [[1, 1]] 1).buyAccuracy = some (1 / 2)
    ∧ some (some (1 : ℚ)) ≠ some (some (1 / 2 : ℚ)) := by
  refine ⟨by decide, by decide, ?_, ?_, by norm_num⟩
  · norm_num +decide [evalColumn, buyTriggerDates, sellTriggerDates, validReturns,
      fwdReturnSeries, pctChange, shiftNeg, qmean, List.range_succ, List.range_zero,
      List.filter_cons, List.filter_nil, List.filterMap_cons, List.filterMap_nil,
      List.getD_cons_zero, List.getD_cons_succ]
  · norm_num +decide [scoreCombo, comboBuyDates, comboSellDates, comboBuyMask,
      comboSellMask, buyMaskStep, sellMaskStep, retPos, retNeg, validReturns,
      fwdReturnSeries, pctChange, shiftNeg, qmean, List.range_succ, List.range_zero,
      List.filter_cons, List.filter_nil, List.filterMap_cons, List.filterMap_nil,
      List.foldl_cons, List.foldl_nil, List.getD_cons_zero, List.getD_cons_succ]

/-- C7 (amended): for equal trigger sets the two scorers report the same buy
and sell returns unconditionally, and the same buy and sell accuracies
provided every triggered date has a present forward return; a missing
forward return is dropped from the evaluator's denominator but kept as a
failure by the combination analyzer. -/
theorem c7_combo_vs_evaluator (closes : List ℚ) (sig c0 : List ℤ)
    (rest : List (List ℤ)) (h : ℕ)
    (hbuy : comboBuyDates closes.length c0 rest = buyTriggerDates closes.length sig)
    (hsell : comboSellDates closes.length c0 rest = sellTriggerDates closes.length sig)
    (ar : AccuracyRecord) (har : evalColumn closes sig h = some ar) :
    ar.buyReturn = (scoreCombo closes c0 rest h).buyReturn
    ∧ ar.sellReturn = (scoreCombo closes c0 rest h).sellReturn
    ∧ ((∀ d ∈ buyTriggerDates closes.length sig,
          ((fwdReturnSeries closes h).getD d none).isSome) →
        ar.buyAccuracy = (scoreCombo closes c0 rest h).buyAccuracy)
    ∧ ((∀ d ∈ sellTriggerDates closes.length sig,
          ((fwdReturnSeries closes h).getD d none).isSome) →
        ar.sellAccuracy = (scoreCombo closes c0 rest h).sellAccuracy) := by
  rw [evalColumn] at har
  split at har
  · exact absurd har (by simp)
  · rw [Option.some_inj] at har
    subst har
    refine ⟨?_, ?_, ?_, ?_⟩
    · simp only [scoreCombo, hbuy]
    · simp only [scoreCombo, hsell]
    · intro hall
      simp only [scoreCombo, hbuy]
      by_cases hbd : 0 < (buyTriggerDates closes.length sig).length
      · rw [if_pos hbd, if_pos hbd, validReturns, filterMap_retPos_map _ _ hall]
      · rw [if_neg hbd, if_neg hbd]
    · intro hall
      simp only [scoreCombo, hsell]
      by_cases hsd : 0 < (sellTriggerDates closes.length sig).length
      · rw [if_pos hsd, if_pos hsd, validReturns, filterMap_retNeg_map _ _ hall]
      · rw [if_neg hsd, if_neg hsd]

/-- Witness for the amended C7: closes [10, 11], signal [1, 0], horizon 1,
combined with itself; every triggered date (just date 0) has a present
forward return, so both accuracies and returns coincide. -/
theorem c7_combo_vs_evaluator_witness :
    ∃ ar, evalColumn [10, 11] [1, 0] 1 = some ar
      ∧ ar.buyReturn = (scoreCombo [10, 11] [1, 0] [[1, 0]] 1).buyReturn
      ∧ ar.buyAccuracy = (scoreCombo [10, 11] [1, 0] [[1, 0]] 1).buyAccuracy := by
  have hbuy : comboBuyDates ([(10 : ℚ), 11]).length [1, 0] [[1, 0]] =
      buyTriggerDates ([(10 : ℚ), 11]).length [1, 0] := by decide
  have hsell : comboSellDates ([(10 : ℚ), 11]).length [1, 0] [[1, 0]] =
      sellTriggerDates ([(10 : ℚ), 11]).length [1, 0] := by decide
  have hall : ∀ d ∈ buyTriggerDates ([(10 : ℚ), 11]).length [1, 0],
      ((fwdReturnSeries [10, 11] 1).getD d none).isSome := by decide
  have hne : ¬((buyTriggerDates ([(10 : ℚ), 11]).length [1, 0]).length +
      (sellTriggerDates ([(10 : ℚ), 11]).length [1, 0]).length = 0) := by decide
  refine ⟨_, by rw [evalColumn, if_neg hne], ?_, ?_⟩
  · exact (c7_combo_vs_evaluator [10, 11] [1, 0] [1, 0] [[1, 0]] 1 hbuy hsell _
      (by rw [evalColumn, if_neg hne])).1
  · exact (c7_combo_vs_evaluator [10, 11] [1, 0] [1, 0] [[1, 0]] 1 hbuy hsell _
      (by rw [evalColumn, if_neg hne])).2.2.1 hall

theorem foldl_buyMaskStep (n d : ℕ) (hd : d < n) :
    ∀ (cs : List (List ℤ)) (m : List Bool),
      (cs.foldl (buyMaskStep n) m).getD d false =
        (m.getD d false && cs.all fun c => decide (0 < c.getD d 0)) := by
  intro cs
  induction cs with
  | nil => intro m; simp
  | cons c cs ih =>
    intro m
    rw [List.foldl_cons, ih]
    simp only [buyMaskStep]
    rw [getD_map_range _ _ _ _ hd]
    simp [Bool.and_assoc]

theorem foldl_sellMaskStep (n d : ℕ) (hd : d < n) :
    ∀ (cs : List (List ℤ)) (m : List Bool),
      (cs.foldl (sellMaskStep n) m).getD d false =
        (m.getD d false && cs.all fun c => decide (c.getD d 0 < 0)) := by
  intro cs
  induction cs with
  | nil => intro m; simp
  | cons c cs ih =>
    intro m
    rw [List.foldl_cons, ih]
    simp only [sellMaskStep]
    rw [getD_map_range _ _ _ _ hd]
    simp [Bool.and_assoc]

/-- The composite buy mask holds at a date iff every member signals `> 0`. -/
theorem comboBuyMask_spec (n : ℕ) (c0 : List ℤ) (rest : List (List ℤ)) (d : ℕ)
    (hd : d < n) :
    ((comboBuyMask n c0 rest).getD d false = true ↔
      ∀ c ∈ c0 :: rest, 0 < c.getD d 0) := by
  rw [comboBuyMask, foldl_buyMaskStep n d hd, getD_map_range _ _ _ _ hd]
  simp [List.all_eq_true]

/-- The composite sell mask holds at a date iff every member signals `< 0`. -/
theorem comboSellMask_spec (n : ℕ) (c0 : List ℤ) (rest : List (List ℤ)) (d : ℕ)
    (hd : d < n) :
    ((comboSellMask n c0 rest).getD d false = true ↔
      ∀ c ∈ c0 :: rest, c.getD d 0 < 0) := by
  rw [comboSellMask, foldl_sellMaskStep n d hd, getD_map_range _ _ _ _ hd]
  simp [List.all_eq_true]

theorem combinations_length {α : Type} :
    ∀ (l : List α) (n : ℕ) (c : List α), c ∈ combinations n l → c.length = n := by
  intro l
  induction l with
  | nil =>
    intro n c hc
    cases n with
    | zero =>
      simp only [combinations, List.mem_singleton] at hc
      subst hc
      rfl
    | succ n => simp [combinations] at hc
  | cons x xs ih =>
    intro n c hc
    cases n with
    | zero =>
      simp only [combinations, List.mem_singleton] at hc
      subst hc
      rfl
    | succ n =>
      rw [combinations] at hc
      rcases List.mem_append.mp hc with h1 | h2
      · obtain ⟨c2, hc2, rfl⟩ := List.mem_map.mp h1
        simp [ih n c2 hc2]
      · exact ih (n + 1) c h2

/-- Membership in the combination analyzer's output. -/
theorem mem_analyze_iff (closes : List ℚ) (indicators : List (List ℤ)) (h : ℕ)
    (r : ComboRecord) :
    r ∈ analyze_signal_combinations closes indicators h ↔
      ∃ i, (2 ≤ i ∧ i ≤ min indicators.length 3) ∧
        ∃ c0 rest, c0 :: rest ∈ combinations i indicators ∧
          scoreCombo closes c0 rest h = r ∧
          (0 < r.buySignals ∨ 0 < r.sellSignals) := by
  rw [analyze_signal_combinations, List.mem_flatMap]
  constructor
  · rintro ⟨i, hi, hr⟩
    rw [List.mem_range'_1] at hi
    rw [List.mem_filterMap] at hr
    obtain ⟨combo, hcombo, hg⟩ := hr
    cases combo with
    | nil => simp at hg
    | cons c0 rest =>
      have hg2 : (if 0 < (scoreCombo closes c0 rest h).buySignals ∨
          0 < (scoreCombo closes c0 rest h).sellSignals then
            some (scoreCombo closes c0 rest h) else none) = some r := hg
      rcases Decidable.em (0 < (scoreCombo closes c0 rest h).buySignals ∨
          0 < (scoreCombo closes c0 rest h).sellSignals) with hcond | hcond
      · rw [if_pos hcond, Option.some_inj] at hg2
        exact ⟨i, ⟨hi.1, by omega⟩, c0, rest, hcombo, hg2, hg2 ▸ hcond⟩
      · rw [if_neg hcond] at hg2
        exact absurd hg2 (by simp)
  · rintro ⟨i, ⟨hi1, hi2⟩, c0, rest, hcombo, heq, hcond⟩
    refine ⟨i, ?_, ?_⟩
    · rw [List.mem_range'_1]
      omega
    · rw [List.mem_filterMap]
      rw [← heq] at hcond
      refine ⟨c0 :: rest, hcombo, ?_⟩
      show (if 0 < (scoreCombo closes c0 rest h).buySignals ∨
          0 < (scoreCombo closes c0 rest h).sellSignals then
            some (scoreCombo closes c0 rest h) else none) = some r
      rw [if_pos hcond, heq]

/-- C8: for every subset of size 2 through min(candidates, 3), the composite
buy (sell) trigger fires exactly on the dates where every member signals
positively (negatively), and the scored combination appears in the output
iff it produced at least one buy or sell signal. -/
theorem c8_combinations (closes : List ℚ) (indicators : List (List ℤ)) (h : ℕ)
    (c0 : List ℤ) (rest : List (List ℤ)) (d : ℕ) (hd : d < closes.length)
    (hsize : 2 ≤ (c0 :: rest).length ∧ (c0 :: rest).length ≤ min indicators.length 3)
    (hmem : c0 :: rest ∈ combinations (c0 :: rest).length indicators) :
    ((comboBuyMask closes.length c0 rest).getD d false = true ↔
      ∀ c ∈ c0 :: rest, 0 < c.getD d 0)
    ∧ ((comboSellMask closes.length c0 rest).getD d false = true ↔
      ∀ c ∈ c0 :: rest, c.getD d 0 < 0)
    ∧ (scoreCombo closes c0 rest h ∈ analyze_signal_combinations closes indicators h ↔
      (0 < (scoreCombo closes c0 rest h).buySignals ∨
        0 < (scoreCombo closes c0 rest h).sellSignals)) := by
  refine ⟨comboBuyMask_spec _ _ _ _ hd, comboSellMask_spec _ _ _ _ hd, ?_⟩
  rw [mem_analyze_iff]
  constructor
  · rintro ⟨i, hi, c0b, restb, hcombo, heq, hcond⟩
    exact hcond
  · intro hcond
    exact ⟨(c0 :: rest).length, hsize, c0, rest, hmem, rfl, hcond⟩

/-- Witness for C8: closes [10, 11], two candidate columns [1, -1] and
[1, 0], horizon 1, the single size-2 combination, date 0. -/
theorem c8_combinations_witness :
    ((comboBuyMask ([(10 : ℚ), 11]).length [1, -1] [[1, 0]]).getD 0 false = true ↔
      ∀ c ∈ ([1, -1] : List ℤ) :: [[1, 0]], 0 < c.getD 0 0)
    ∧ (scoreCombo [10, 11] [1, -1] [[1, 0]] 1 ∈
        analyze_signal_combinations [10, 11] [[1, -1], [1, 0]] 1 ↔
      (0 < (scoreCombo [10, 11] [1, -1] [[1, 0]] 1).buySignals ∨
        0 < (scoreCombo [10, 11] [1, -1] [[1, 0]] 1).sellSignals)) := by
  have h := c8_combinations [10, 11] [[1, -1], [1, 0]] 1 [1, -1] [[1, 0]] 0
    (by norm_num) (by decide) (by decide)
  exact ⟨h.1, h.2.2⟩

/-- C9 (counterexample): on zero-length input the evaluator's `results` list
is empty, and `pd.DataFrame(results).set_index('Signal')` raises a KeyError
— modelled as `none` — instead of returning an empty table. -/
theorem c9_counterexample : evaluate_individual_signals [] [[]] 5 = none := by
  rfl

/-- C9 (amended): on zero-length input the Backtest Engine returns an empty
ledger with all-zero summary statistics, but the Signal Accuracy Evaluator
raises (`set_index('Signal')` on the empty results frame) rather than
returning an empty table. -/
theorem c9_empty_input (init ps : ℚ) (sigs : List (List ℤ)) (h : ℕ) :
    backtest_strategy [] init ps =
      ([], { initialCapital := init, finalCapital := init, totalReturn := 0,
             numTrades := 0, winRate := 0, avgHolding := 0, totalProfit := 0,
             totalLoss := 0, profitFactor := .val 0 })
    ∧ evaluate_individual_signals [] sigs h = none := by
  constructor
  · rfl
  · rw [evaluate_individual_signals]
    have hnil : (sigs.filterMap fun s => evalColumn [] s h) = [] := by
      rw [List.filterMap_eq_nil_iff]
      intro s hs
      rfl
    rw [hnil]
    rfl

end StockAnalysis
